import Mathlib

/-!
Verification of the command-dispatch core of the bs-query-bot repository
(single source file `__main__.py`).

Python strings are modelled as `List Char`; Python `set`s as `Finset`;
Python `dict`s as association lists with Python's assignment/lookup
semantics; dictionary key access that may raise `KeyError` is modelled in
the `Except Unit` monad; Python `None`-able values as `Option`.

Every definition is a direct transcription of the corresponding Python
function; comments cite the source lines.
-/

namespace BSQ

/-- Python `str.strip()` whitespace test, restricted to the ASCII
whitespace characters (space, tab, newline, carriage return, vertical
tab, form feed). -/
def isPySpace (c : Char) : Bool :=
  c == ' ' || c == '\t' || c == '\n' || c == '\r' || c == '\x0b' || c == '\x0c'

/-- Python `text.split(' ')`: split on every single space, keeping empty
pieces between consecutive spaces and at the ends.  The result is never
empty (`''.split(' ') == ['']`). -/
def splitSp : List Char → List (List Char)
  | [] => [[]]
  | c :: rest =>
    if c = ' ' then [] :: splitSp rest
    else
      match splitSp rest with
      | [] => [[c]]
      | t :: ts => (c :: t) :: ts

/-- Python `str.strip()`: drop leading and trailing whitespace. -/
def pyStrip (l : List Char) : List Char :=
  ((l.dropWhile isPySpace).reverse.dropWhile isPySpace).reverse

/-- Tokenization step of `BeatSaberQuery.parse` (line 119):
`list(map(str.strip, filter(lambda e: e, text.split(' '))))` —
note the source filters out empty pieces BEFORE stripping each piece. -/
def tokenize (text : List Char) : List (List Char) :=
  ((splitSp text).filter fun e => !e.isEmpty).map pyStrip

/-- The configured command prefix `BeatSaberQuery.PREFIX = '\\'` (line 73). -/
def cmdPfx : List Char := ['\\']

/-- `BeatSaberQuery.parse` (lines 118-128).  `cmds` is the
`available_commands` set.  Returns the argument vector with the first
token stripped of the command prefix, or `none` on rejection. -/
def parse (cmds : Finset (List Char)) (text : List Char) :
    Option (List (List Char)) :=
  match tokenize text with
  | [] => none
  | a0 :: rest =>
    if a0.take cmdPfx.length = cmdPfx then
      if a0.drop cmdPfx.length ∈ cmds then some (a0.drop cmdPfx.length :: rest)
      else none
    else none

/-- Result of `splitSp` is never the empty list of pieces. -/
theorem splitSp_ne_nil (l : List Char) : splitSp l ≠ [] := by
  cases l with
  | nil => simp [splitSp]
  | cons c rest =>
    simp only [splitSp]
    split
    · simp
    · split
      · simp
      · simp

/-- Characters of any piece of `splitSp l` come from `l` and are never
the space character. -/
theorem splitSp_sound (l : List Char) :
    ∀ s ∈ splitSp l, ∀ c ∈ s, c ∈ l ∧ c ≠ ' ' := by
  induction l with
  | nil =>
    intro s hs c hc
    simp [splitSp] at hs
    subst hs
    simp at hc
  | cons a rest ih =>
    intro s hs c hc
    by_cases ha : a = ' '
    · rw [splitSp, if_pos ha] at hs
      rcases List.mem_cons.mp hs with h | h
      · subst h; simp at hc
      · have h2 := ih s h c hc
        exact ⟨List.mem_cons_of_mem _ h2.1, h2.2⟩
    · rw [splitSp, if_neg ha] at hs
      rcases hr : splitSp rest with _ | ⟨t, ts⟩
      · exact absurd hr (splitSp_ne_nil rest)
      · rw [hr] at hs
        rcases List.mem_cons.mp hs with h | h
        · subst h
          rcases List.mem_cons.mp hc with h1 | h1
          · subst h1; exact ⟨List.mem_cons_self _ _, ha⟩
          · have ht : t ∈ splitSp rest := by rw [hr]; exact List.mem_cons_self _ _
            have h2 := ih t ht c h1
            exact ⟨List.mem_cons_of_mem _ h2.1, h2.2⟩
        · have hts : s ∈ splitSp rest := by
            rw [hr]; exact List.mem_cons_of_mem _ h
          have h2 := ih s hts c hc
          exact ⟨List.mem_cons_of_mem _ h2.1, h2.2⟩

/-- If `dropWhile p` consumes the whole list, every element satisfied `p`. -/
theorem dropWhile_eq_nil_all (p : Char → Bool) (l : List Char)
    (h : l.dropWhile p = []) : ∀ c ∈ l, p c = true := by
  induction l with
  | nil => intro c hc; simp at hc
  | cons a rest ih =>
    intro c hc
    cases hpa : p a with
    | false =>
      rw [List.dropWhile_cons, hpa] at h
      simp at h
    | true =>
      rw [List.dropWhile_cons, hpa] at h
      simp only at h
      rcases List.mem_cons.mp hc with h1 | h1
      · subst h1; exact hpa
      · exact ih h c h1

/-- Elements kept by `takeWhile p` satisfy `p`. -/
theorem mem_takeWhile_sat (p : Char → Bool) (l : List Char) :
    ∀ c ∈ l.takeWhile p, p c = true := by
  induction l with
  | nil => intro c hc; simp at hc
  | cons a rest ih =>
    intro c hc
    cases hpa : p a with
    | false =>
      rw [List.takeWhile_cons, hpa] at hc
      simp at hc
    | true =>
      rw [List.takeWhile_cons, hpa] at hc
      simp only at hc
      rcases List.mem_cons.mp hc with h1 | h1
      · subst h1; exact hpa
      · exact ih c h1

/-- A list whose strip is empty consists of whitespace only. -/
theorem pyStrip_eq_nil_all (s : List Char) (h : pyStrip s = []) :
    ∀ c ∈ s, isPySpace c = true := by
  unfold pyStrip at h
  rw [List.reverse_eq_nil_iff] at h
  have h3 : ∀ c ∈ s.dropWhile isPySpace, isPySpace c = true := by
    intro c hc
    exact dropWhile_eq_nil_all isPySpace _ h c (List.mem_reverse.mpr hc)
  intro c hc
  have hsplit : s.takeWhile isPySpace ++ s.dropWhile isPySpace = s := by
    simp [List.takeWhile_append_dropWhile]
  rw [← hsplit] at hc
  rcases List.mem_append.mp hc with h1 | h1
  · exact mem_takeWhile_sat isPySpace s c h1
  · exact h3 c h1

/-- Value of the `qq` field of a mention ("at") segment: an integer
identity, or the broadcast marker string `"all"`. -/
inductive QQField
  | num (n : Int)
  | all
deriving DecidableEq

/-- One element of a frame's `message` array.  `textSeg s` models a
segment dict with `type == "text"` and `data.text == s`; `atSeg q`
models `type == "at"` with `data.qq == q`; `otherSeg tag` models a
segment whose `type` string `tag` is neither `"text"` nor `"at"`. -/
inductive Segment
  | textSeg (s : List Char)
  | atSeg (q : QQField)
  | otherSeg (tag : List Char)
deriving DecidableEq

/-- Membership test `e['type'] in ['at', 'text']` used by
`BeatSaberQuery.translate` (lines 134-135). -/
def allowedType : Segment → Bool
  | Segment.textSeg _ => true
  | Segment.atSeg _ => true
  | Segment.otherSeg _ => false

/-- Per-segment contribution to the concatenated command text
(line 138): a text segment contributes its literal text, any other
segment contributes a single space. -/
def segContrib : Segment → List Char
  | Segment.textSeg s => s
  | _ => [' ']

/-- The concatenation `''.join(map(..., msg['message']))` of line 138. -/
def rawText (segs : List Segment) : List Char :=
  (segs.map segContrib).flatten

/-- Projection selecting mention segments and their `qq` value, used to
model `filter(lambda e: e['type'] == 'at', ...)` followed by the access
`e['data']['qq']` on line 139. -/
def segAtQQ : Segment → Option QQField
  | Segment.atSeg q => some q
  | _ => none

/-- The `targets` set of line 139: `qq` values of mention segments,
those equal to the broadcast marker `"all"` filtered out, collected into
a set. -/
def targetsOf (segs : List Segment) : Finset QQField :=
  (((segs.filterMap segAtQQ).filter fun q => q ≠ QQField.all)).toFinset

/-- The `RawCommand` named tuple (lines 61-64). -/
structure RawCommand where
  sender : Int
  command : List Char
  targets : Finset QQField
deriving DecidableEq

/-- The `Command` named tuple (lines 66-70). -/
structure Command where
  group : Option Int
  sender : Int
  command : List (List Char)
  targets : Finset QQField
deriving DecidableEq

/-- A JSON frame after successful decoding, with exactly the fields the
pipeline reads.  Each field is `none` when the corresponding key is
absent from the frame's dictionary. -/
structure Frame where
  message_type : Option (List Char)
  group_id : Option Int
  user_id : Option Int
  message : Option (List Segment)
deriving DecidableEq

/-- `BeatSaberQuery.translate` (lines 133-140).  Subscript access
`msg['message']` and `msg['user_id']` raises `KeyError` when the key is
absent, modelled by `Except.error ()`. -/
def translate (msg : Frame) : Except Unit (Option RawCommand) :=
  match msg.message with
  | none => Except.error ()
  | some segs =>
    if ((segs.filter fun e => !allowedType e)).length ≠ 0 then Except.ok none
    else
      match msg.user_id with
      | none => Except.error ()
      | some sender => Except.ok (some ⟨sender, rawText segs, targetsOf segs⟩)

/-- Allow-list gate of `BeatSaberQuery.message_poller` (lines 150-155):
`msg.get('message_type')` never raises; the subsequent `msg['user_id']`
or `msg['group_id']` subscript may raise `KeyError`. -/
def gateEnabled (ge pe : Finset Int) (msg : Frame) : Except Unit Bool :=
  match msg.message_type with
  | none => Except.ok false
  | some mt =>
    if mt = "private".toList then
      match msg.user_id with
      | none => Except.error ()
      | some uid => Except.ok (decide (uid ∈ pe))
    else if mt = "group".toList then
      match msg.group_id with
      | none => Except.error ()
      | some gid => Except.ok (decide (gid ∈ ge))
    else Except.ok false

/-- Per-frame processing of `BeatSaberQuery.message_poller` after JSON
decoding (lines 150-164): gate, translate, parse, then construct the
`Command` that is enqueued.  `Except.ok none` means the frame is
discarded, `Except.ok (some c)` means `c` is enqueued, `Except.error ()`
means an uncaught `KeyError` escapes the loop body. -/
def processFrame (ge pe : Finset Int) (cmds : Finset (List Char))
    (msg : Frame) : Except Unit (Option Command) :=
  match gateEnabled ge pe msg with
  | Except.error e => Except.error e
  | Except.ok false => Except.ok none
  | Except.ok true =>
    match translate msg with
    | Except.error e => Except.error e
    | Except.ok none => Except.ok none
    | Except.ok (some raw) =>
      match parse cmds raw.command with
      | none => Except.ok none
      | some command =>
        Except.ok (some ⟨msg.group_id, raw.sender, command, raw.targets⟩)

/-- C1: for every input text, `parse` returns a token sequence (rather
than rejecting with `none`) if and only if the tokenization of the text
is non-empty, the first token begins with the configured command prefix
character, and the first token with the prefix stripped is a member of
the set of currently registered command names; in every other case
`parse` returns `none`. -/
theorem parse_some_characterization (cmds : Finset (List Char)) (text : List Char) :
    (parse cmds text).isSome = true ↔
      (tokenize text ≠ [] ∧
       (tokenize text).headI.take cmdPfx.length = cmdPfx ∧
       (tokenize text).headI.drop cmdPfx.length ∈ cmds) := by
  cases h : tokenize text with
  | nil => simp [parse, h]
  | cons a0 rest =>
    simp only [parse, h, List.headI, ne_eq, reduceCtorEq, not_false_iff, true_and]
    by_cases h1 : a0.take cmdPfx.length = cmdPfx
    · by_cases h2 : a0.drop cmdPfx.length ∈ cmds
      · simp [h1, h2]
      · simp [h1, h2]
    · simp [h1]

/-- C3 counterexample: the token sequence produced by the tokenization
step of `parse` CAN contain an empty token, and an all-whitespace
(non-space) token DOES appear as an empty string in a returned argument
vector: on input `"\help \t"` with `help` registered, `parse` returns
`["help", ""]`. -/
theorem tokenize_empty_token_cex :
    (([] : List Char) ∈ tokenize ("a \t b".toList)) ∧
      parse {"help".toList} ("\\help \t".toList) =
        some ["help".toList, ([] : List Char)] := by
  constructor
  · decide
  · decide

/-- C3 amended: the tokenization step of `parse` drops empty pieces
BEFORE trimming, so every returned token is the trim of a non-empty
space-delimited piece of the text; consequently a piece consisting only
of non-space whitespace survives as an empty-string token.  However, if
the only whitespace occurring in the text is the space character itself,
then no empty token appears in the tokenization. -/
theorem tokenize_empty_token_origin (text : List Char) :
    (∀ t ∈ tokenize text, ∃ s ∈ splitSp text, s ≠ [] ∧ pyStrip s = t) ∧
    ((∀ c ∈ text, isPySpace c = true → c = ' ') →
      ([] : List Char) ∉ tokenize text) := by
  constructor
  · intro t ht
    rcases List.mem_map.mp ht with ⟨s, hs, hst⟩
    rcases List.mem_filter.mp hs with ⟨hs1, hs2⟩
    refine ⟨s, hs1, ?_, hst⟩
    intro hnil
    subst hnil
    simp at hs2
  · intro hsp hmem
    rcases List.mem_map.mp hmem with ⟨s, hs, hst⟩
    rcases List.mem_filter.mp hs with ⟨hs1, hs2⟩
    have hsne : s ≠ [] := by
      intro hnil; subst hnil; simp at hs2
    rcases List.exists_mem_of_ne_nil s hsne with ⟨c, hc⟩
    have hcs : isPySpace c = true := pyStrip_eq_nil_all s hst c hc
    have hcsp : c = ' ' := hsp c (splitSp_sound text s hs1 c hc).1 hcs
    exact (splitSp_sound text s hs1 c hc).2 hcsp

/-- Witness for `tokenize_empty_token_origin` at concrete inputs. -/
theorem tokenize_empty_token_origin_witness :
    (∃ s ∈ splitSp ("a \t b".toList), s ≠ [] ∧ pyStrip s = ([] : List Char)) ∧
      ([] : List Char) ∉ tokenize ("ab cd".toList) := by
  constructor
  · exact (tokenize_empty_token_origin ("a \t b".toList)).1 [] (by decide)
  · exact (tokenize_empty_token_origin ("ab cd".toList)).2 (by decide)

/-- Selecting a mention segment's identity succeeds exactly on mention
segments. -/
theorem segAtQQ_eq_some (s : Segment) (q : QQField) :
    segAtQQ s = some q ↔ s = Segment.atSeg q := by
  cases s <;> simp [segAtQQ]

/-- Membership in the translated target set, characterized over the
segment list. -/
theorem mem_targetsOf (segs : List Segment) (q : QQField) :
    q ∈ targetsOf segs ↔ (Segment.atSeg q ∈ segs ∧ q ≠ QQField.all) := by
  unfold targetsOf
  simp [List.mem_toFinset, List.mem_filter, List.mem_filterMap, segAtQQ_eq_some]

/-- C4: for every gateway message whose segment list contains at least
one segment with a tag outside the allowed set, `translate` returns
rejection (`Except.ok none`), and consequently no `Command` derived from
that message is ever produced for enqueuing by the per-frame processing. -/
theorem translate_unsupported_segment (msg : Frame) (segs : List Segment)
    (hm : msg.message = some segs) (hbad : ∃ s ∈ segs, allowedType s = false) :
    translate msg = Except.ok none ∧
    ∀ ge pe cmds c, processFrame ge pe cmds msg ≠ Except.ok (some c) := by
  have hlen : ((segs.filter fun e => !allowedType e)).length ≠ 0 := by
    rcases hbad with ⟨s, hs, hb⟩
    have hmem : s ∈ segs.filter fun e => !allowedType e :=
      List.mem_filter.mpr ⟨hs, by simp [hb]⟩
    have hne := List.ne_nil_of_mem hmem
    simpa [List.length_eq_zero] using hne
  have h1 : translate msg = Except.ok none := by
    simp only [translate, hm]
    rw [if_pos hlen]
  refine ⟨h1, ?_⟩
  intro ge pe cmds c hcontra
  cases hg : gateEnabled ge pe msg with
  | error e => simp [processFrame, hg] at hcontra
  | ok b =>
    cases b with
    | false => simp [processFrame, hg] at hcontra
    | true => simp [processFrame, hg, h1] at hcontra

/-- Concrete frame with an unsupported segment tag. -/
def frameC4 : Frame :=
  ⟨some ("group".toList), some 1, some 2, some [Segment.otherSeg ("image".toList)]⟩

/-- Concrete command value. -/
def cmdC4 : Command := ⟨none, 0, [], ∅⟩

/-- Witness for `translate_unsupported_segment` at a concrete frame. -/
theorem translate_unsupported_segment_witness :
    translate frameC4 = Except.ok none ∧
      processFrame ∅ ∅ ∅ frameC4 ≠ Except.ok (some cmdC4) := by
  have h := translate_unsupported_segment frameC4 [Segment.otherSeg ("image".toList)]
      rfl ⟨Segment.otherSeg ("image".toList), by simp, rfl⟩
  exact ⟨h.1, h.2 ∅ ∅ ∅ cmdC4⟩

/-- C5: for every message accepted by `translate`, the resulting
`RawCommand`'s target set contains exactly the identities of the mention
segments whose referenced identity is not the broadcast `"all"` marker;
the broadcast marker never appears in `targets`, and duplicate mentions
collapse because `targets` is a set (membership fully characterizes it). -/
theorem translate_targets_exact (msg : Frame) (segs : List Segment) (raw : RawCommand)
    (hm : msg.message = some segs) (ht : translate msg = Except.ok (some raw)) :
    (∀ q : QQField, q ∈ raw.targets ↔ (Segment.atSeg q ∈ segs ∧ q ≠ QQField.all)) ∧
    QQField.all ∉ raw.targets := by
  have hrt : raw.targets = targetsOf segs := by
    simp only [translate, hm] at ht
    by_cases hlen : ((segs.filter fun e => !allowedType e)).length ≠ 0
    · rw [if_pos hlen] at ht
      exact absurd ht (by simp)
    · rw [if_neg hlen] at ht
      cases hu : msg.user_id with
      | none => rw [hu] at ht; exact absurd ht (by simp)
      | some u =>
        rw [hu] at ht
        have h2 := Option.some.inj (Except.ok.inj ht)
        rw [← h2]
  constructor
  · intro q; rw [hrt]; exact mem_targetsOf segs q
  · rw [hrt]
    intro hmem
    exact ((mem_targetsOf segs QQField.all).mp hmem).2 rfl

/-- Concrete segment list with a duplicate mention and a broadcast
mention. -/
def segsC5 : List Segment :=
  [Segment.atSeg (QQField.num 5), Segment.textSeg ("hi".toList),
   Segment.atSeg QQField.all, Segment.atSeg (QQField.num 5)]

/-- Concrete frame accepted by `translate`. -/
def frameC5 : Frame := ⟨some ("group".toList), some 9, some 7, some segsC5⟩

/-- Witness for `translate_targets_exact` at a concrete frame. -/
theorem translate_targets_exact_witness :
    ((QQField.num 5 ∈ (RawCommand.mk 7 (rawText segsC5) (targetsOf segsC5)).targets) ↔
      (Segment.atSeg (QQField.num 5) ∈ segsC5 ∧ QQField.num 5 ≠ QQField.all)) ∧
    QQField.all ∉ (RawCommand.mk 7 (rawText segsC5) (targetsOf segsC5)).targets := by
  have h := translate_targets_exact frameC5 segsC5
      (RawCommand.mk 7 (rawText segsC5) (targetsOf segsC5)) rfl rfl
  exact ⟨h.1 (QQField.num 5), h.2⟩

/-- C9: inside the poller's per-frame processing only the JSON-decode
step is guarded, so a decoded frame of message type `"group"` lacking
the `group_id` key makes the gate raise a key-lookup error, a
group-gated frame lacking the `message` key makes `translate` raise,
and a group-gated frame with acceptable segments lacking the `user_id`
key makes `translate` raise; none of these frames is silently
discarded. -/
theorem poller_missing_keys_raise (ge pe : Finset Int) (cmds : Finset (List Char))
    (msg : Frame) :
    (msg.message_type = some ("group".toList) → msg.group_id = none →
      processFrame ge pe cmds msg = Except.error ()) ∧
    (∀ g : Int, msg.message_type = some ("group".toList) → msg.group_id = some g →
      g ∈ ge → msg.message = none →
      processFrame ge pe cmds msg = Except.error ()) ∧
    (∀ g : Int, ∀ segs : List Segment, msg.message_type = some ("group".toList) →
      msg.group_id = some g → g ∈ ge → msg.message = some segs →
      ((segs.filter fun e => !allowedType e)).length = 0 → msg.user_id = none →
      processFrame ge pe cmds msg = Except.error ()) := by
  have hne : ¬ ("group".toList = "private".toList) := by decide
  refine ⟨?_, ?_, ?_⟩
  · intro hmt hgid
    have hgate : gateEnabled ge pe msg = Except.error () := by
      simp [gateEnabled, hmt, hgid]
    simp [processFrame, hgate]
  · intro g hmt hgid hg hmsg
    have hd : decide (g ∈ ge) = true := decide_eq_true hg
    have hgate : gateEnabled ge pe msg = Except.ok true := by
      simp [gateEnabled, hmt, hgid, hd]
    have htr : translate msg = Except.error () := by
      simp [translate, hmsg]
    simp [processFrame, hgate, htr]
  · intro g segs hmt hgid hg hmsg hlen huid
    have hd : decide (g ∈ ge) = true := decide_eq_true hg
    have hgate : gateEnabled ge pe msg = Except.ok true := by
      simp [gateEnabled, hmt, hgid, hd]
    have htr : translate msg = Except.error () := by
      simp only [translate, hmsg]
      rw [if_neg (by simp [hlen]), huid]
    simp [processFrame, hgate, htr]

/-- Group frame lacking `group_id`. -/
def frameC9a : Frame := ⟨some ("group".toList), none, some 1, some []⟩

/-- Group-gated frame lacking `message`. -/
def frameC9b : Frame := ⟨some ("group".toList), some 5, some 1, none⟩

/-- Group-gated frame lacking `user_id`. -/
def frameC9c : Frame :=
  ⟨some ("group".toList), some 5, none, some [Segment.textSeg ("x".toList)]⟩

/-- Witness for `poller_missing_keys_raise` at concrete frames. -/
theorem poller_missing_keys_raise_witness :
    processFrame ∅ ∅ ∅ frameC9a = Except.error () ∧
    processFrame {5} ∅ ∅ frameC9b = Except.error () ∧
    processFrame {5} ∅ ∅ frameC9c = Except.error () := by
  refine ⟨(poller_missing_keys_raise ∅ ∅ ∅ frameC9a).1 rfl rfl, ?_, ?_⟩
  · exact (poller_missing_keys_raise {5} ∅ ∅ frameC9b).2.1 5 rfl rfl
      (Finset.mem_singleton.mpr rfl) rfl
  · exact (poller_missing_keys_raise {5} ∅ ∅ frameC9c).2.2 5
      [Segment.textSeg ("x".toList)] rfl rfl (Finset.mem_singleton.mpr rfl) rfl rfl rfl

/-- Control location of the consumer coroutine `message_handler`
(lines 166-169): `check` is the loop-condition test
`not self._cancelled.is_set()`, `waiting` is the suspension inside
`await self.dequeue()` (the subsequent `self.query(task)` dispatch is
folded into the dequeue transition), `done` means the loop exited. -/
inductive CState
  | check
  | waiting
  | done
deriving DecidableEq

/-- State of the consumer: the cancellation flag, the task queue
contents, the control location, and the commands dispatched so far. -/
structure HState where
  cancelled : Bool
  queue : List Command
  loc : CState
  processed : List Command
deriving DecidableEq

/-- One scheduling step of `message_handler`.  From `check` the loop
exits when the flag is set and otherwise moves into the dequeue await;
from `waiting` on an empty queue the coroutine stays suspended — setting
the flag is NOT observed there, because `asyncio.Queue.get` blocks until
an item arrives; when an item is available it is dequeued, dispatched,
and control returns to the loop condition. -/
def hstep (s : HState) : HState :=
  match s.loc with
  | CState.done => s
  | CState.check =>
    if s.cancelled then { s with loc := CState.done }
    else { s with loc := CState.waiting }
  | CState.waiting =>
    match s.queue with
    | [] => s
    | t :: rest =>
      { s with queue := rest, processed := s.processed ++ [t], loc := CState.check }

/-- C2 counterexample: with the cancellation flag set while the consumer
is idle on an empty queue (suspended in `await dequeue()`), the state is
a fixpoint of the step function and is not the exited state — so the
consumer does NOT exit within one polling interval (nor ever, while the
queue stays empty). -/
theorem handler_idle_cancel_no_exit :
    hstep ⟨true, [], CState.waiting, []⟩ = ⟨true, [], CState.waiting, []⟩ ∧
    (hstep ⟨true, [], CState.waiting, []⟩).loc ≠ CState.done := by
  exact ⟨rfl, by decide⟩

/-- C2 amended: the consumer observes the cancellation flag only at the
top-of-loop check; if the flag is set when the consumer is at the check,
it exits in one step without dequeuing further commands, but if the flag
is set while the consumer is suspended on an empty queue it stays
suspended forever (no polling interval exists there). -/
theorem handler_cancellation_discipline (s : HState) (hc : s.cancelled = true) :
    (s.loc = CState.check → hstep s = { s with loc := CState.done }) ∧
    (s.loc = CState.waiting → s.queue = [] → ∀ n : Nat, hstep^[n] s = s) := by
  constructor
  · intro hl
    simp [hstep, hl, hc]
  · intro hl hq n
    have hfix : hstep s = s := by simp [hstep, hl, hq]
    exact Function.iterate_fixed hfix n

/-- Witness for `handler_cancellation_discipline` at concrete states. -/
theorem handler_cancellation_discipline_witness :
    hstep ⟨true, [], CState.check, []⟩ = ⟨true, [], CState.done, []⟩ ∧
    hstep^[2] ⟨true, [], CState.waiting, []⟩ = ⟨true, [], CState.waiting, []⟩ := by
  constructor
  · exact (handler_cancellation_discipline ⟨true, [], CState.check, []⟩ rfl).1 rfl
  · exact (handler_cancellation_discipline ⟨true, [], CState.waiting, []⟩ rfl).2 rfl rfl 2

/-- Python truthiness of an optional integer (`None` and `0` are falsy),
as applied to `kwargs.get('sender')` and `kwargs.get('group')` on lines
104-106. -/
def truthyOptInt : Option Int → Bool
  | none => false
  | some n => n != 0

/-- Python truthiness of the handler's return value on line 106 (`None`
and the empty string are falsy). -/
def pyTruthyReply : Option (List Char) → Bool
  | none => false
  | some s => !s.isEmpty

/-- One recorded invocation of `self.reply(reply, group=group,
private=private)` (line 107). -/
structure ReplyCall where
  msg : List Char
  group : Option Int
  priv : Option Int
deriving DecidableEq

/-- The registration wrapper built by `BeatSaberQuery.command`
(lines 99-110), abstracted over the handler's returned reply `r` and the
invocation context: the list of calls it makes to the reply dispatcher. -/
def wrapperCalls (r : Option (List Char)) (sender group : Option Int) :
    List ReplyCall :=
  if pyTruthyReply r && (truthyOptInt sender || truthyOptInt group) then
    [⟨r.getD [], group, sender⟩]
  else []

/-- C6: if the handler returns no reply (`None` or empty), the wrapper
makes zero outbound delivery calls; if the handler returns a non-empty
reply and the invocation context carries a destination (a truthy group
id or a truthy private sender id), the wrapper makes exactly one call to
the reply dispatcher forwarding that reply. -/
theorem wrapper_delivery_spec (r : Option (List Char)) (sender group : Option Int) :
    (pyTruthyReply r = false → wrapperCalls r sender group = []) ∧
    (∀ s, r = some s → s ≠ [] →
      (truthyOptInt sender = true ∨ truthyOptInt group = true) →
      wrapperCalls r sender group = [⟨s, group, sender⟩]) := by
  constructor
  · intro h
    simp [wrapperCalls, h]
  · intro s hr hs hd
    subst hr
    have hb : pyTruthyReply (some s) = true := by
      simp [pyTruthyReply, hs]
    rcases hd with h | h <;> simp [wrapperCalls, hb, h]

/-- Witness for `wrapper_delivery_spec` at concrete inputs. -/
theorem wrapper_delivery_spec_witness :
    wrapperCalls none (some 1) none = [] ∧
    wrapperCalls (some ("hi".toList)) (some 1) (some 2) =
      [⟨"hi".toList, some 2, some 1⟩] := by
  constructor
  · exact (wrapper_delivery_spec none (some 1) none).1 rfl
  · exact (wrapper_delivery_spec (some ("hi".toList)) (some 1) (some 2)).2
      ("hi".toList) rfl (by decide) (Or.inl (by decide))

/-- C10: the wrapper's destination-present test uses integer truthiness,
so for a dispatched command whose group is absent and whose sender
identity equals `0`, a non-empty handler reply triggers zero outbound
delivery calls. -/
theorem wrapper_zero_sender_no_delivery (s : List Char) (_hs : s ≠ []) :
    wrapperCalls (some s) (some 0) none = [] := by
  simp [wrapperCalls, truthyOptInt]

/-- Witness for `wrapper_zero_sender_no_delivery` at a concrete reply. -/
theorem wrapper_zero_sender_no_delivery_witness :
    wrapperCalls (some ("hi".toList)) (some 0) none = [] :=
  wrapper_zero_sender_no_delivery ("hi".toList) (by decide)

/-- The two outbound delivery endpoints of `BeatSaberQuery.reply`
(lines 175 and 181). -/
inductive Endpoint
  | sendGroupMsg
  | sendPrivateMsg
deriving DecidableEq

/-- One `requests.post` call issued by `reply` (line 187): the endpoint,
the `group_id`/`user_id` value, and the `message` field of the body. -/
structure PostCall where
  endpoint : Endpoint
  targetId : Int
  message : List Char
deriving DecidableEq

/-- Python `str(x)` for the `{private}` interpolation on line 178:
decimal rendering of an integer, or the literal text `None`. -/
def pyStrOfOptInt : Option Int → List Char
  | none => "None".toList
  | some n => (toString n).toList

/-- `BeatSaberQuery.reply` (lines 171-187) as the list of outbound HTTP
posts it makes.  When the group destination is truthy the group endpoint
is used with the message prefixed by a CQ mention of `private`; else
when the private destination is truthy the private endpoint is used with
the bare message; when neither is truthy the local variable `api` was
never assigned and line 186 raises `NameError`, modelled as
`Except.error ()`. -/
def replyCalls (msg : List Char) (group priv : Option Int) :
    Except Unit (List PostCall) :=
  if truthyOptInt group then
    Except.ok [⟨Endpoint.sendGroupMsg, group.getD 0,
      "[CQ:at,qq=".toList ++ pyStrOfOptInt priv ++ "] ".toList ++ msg⟩]
  else if truthyOptInt priv then
    Except.ok [⟨Endpoint.sendPrivateMsg, priv.getD 0, msg⟩]
  else Except.error ()

/-- C7: when both a group destination and a private destination are
present, the group destination takes priority — the whole call list is
one post to the group delivery endpoint and none to the private
endpoint — and the outbound group message text is automatically prefixed
with a mention of the original sender before the text. -/
theorem reply_group_priority (msg : List Char) (g u : Int) (hg : g ≠ 0) :
    replyCalls msg (some g) (some u) =
      Except.ok [⟨Endpoint.sendGroupMsg, g,
        "[CQ:at,qq=".toList ++ (toString u).toList ++ "] ".toList ++ msg⟩] := by
  have ht : truthyOptInt (some g) = true := by
    simp [truthyOptInt, hg]
  simp [replyCalls, ht, pyStrOfOptInt]

/-- Witness for `reply_group_priority` at concrete inputs. -/
theorem reply_group_priority_witness :
    replyCalls ("ok".toList) (some 5) (some 7) =
      Except.ok [⟨Endpoint.sendGroupMsg, 5,
        "[CQ:at,qq=".toList ++ (toString (7 : Int)).toList ++ "] ".toList ++
          "ok".toList⟩] :=
  reply_group_priority ("ok".toList) 5 7 (by decide)

/-- Python `dict` assignment `d[k] = v`: replace the value at an
existing key, otherwise append the new binding. -/
def dictInsert {H : Type} (k : List Char) (v : H) :
    List (List Char × H) → List (List Char × H)
  | [] => [(k, v)]
  | (k2, v2) :: rest =>
    if k2 = k then (k, v) :: rest else (k2, v2) :: dictInsert k v rest

/-- Python `dict` subscript lookup `d[k]` (returning `none` models the
`KeyError` case). -/
def dictLookup {H : Type} (k : List Char) : List (List Char × H) → Option H
  | [] => none
  | (k2, v2) :: rest => if k2 = k then some v2 else dictLookup k rest

/-- Registration state of `BeatSaberQuery`: the `available_commands`
set and the `router` dictionary (lines 75-76, 88-89), with handlers of
abstract type `H`. -/
structure BotState (H : Type) where
  available_commands : Finset (List Char)
  router : List (List Char × H)

/-- The freshly-constructed state (lines 88-89): both containers empty. -/
def initBot (H : Type) : BotState H := ⟨∅, []⟩

/-- Effect of one `BeatSaberQuery.command` registration (lines 108-109):
`self.available_commands.add(subcmd)` and `self.router[subcmd] = wrapper`. -/
def registerCmd {H : Type} (subcmd : List Char) (h : H) (s : BotState H) :
    BotState H :=
  ⟨insert subcmd s.available_commands, dictInsert subcmd h s.router⟩

/-- State after a sequence of registrations starting from the fresh
state. -/
def applyRegs {H : Type} (regs : List (List Char × H)) : BotState H :=
  regs.foldl (fun s p => registerCmd p.1 p.2 s) (initBot H)

/-- Key set of the router after a dictionary assignment. -/
theorem keys_dictInsert {H : Type} (k : List Char) (v : H)
    (d : List (List Char × H)) :
    ((dictInsert k v d).map Prod.fst).toFinset =
      insert k ((d.map Prod.fst).toFinset) := by
  induction d with
  | nil =>
    simp only [dictInsert, List.map_cons, List.map_nil, List.toFinset_cons,
      List.toFinset_nil]
  | cons p rest ih =>
    obtain ⟨k2, v2⟩ := p
    by_cases h : k2 = k
    · subst h
      simp only [dictInsert, if_true, eq_self_iff_true, List.map_cons,
        List.toFinset_cons, Finset.insert_idem]
    · simp only [dictInsert, if_neg h, List.map_cons, List.toFinset_cons, ih]
      rw [Finset.Insert.comm]

/-- Lookup succeeds on any key present in the dictionary. -/
theorem dictLookup_ne_none {H : Type} (k : List Char)
    (d : List (List Char × H)) (h : k ∈ d.map Prod.fst) :
    dictLookup k d ≠ none := by
  induction d with
  | nil => simp at h
  | cons p rest ih =>
    obtain ⟨k2, v2⟩ := p
    by_cases hk : k2 = k
    · simp [dictLookup, hk]
    · have h2 : k ∈ rest.map Prod.fst := by
        rcases List.mem_cons.mp h with h1 | h1
        · exact absurd h1.symm hk
        · exact h1
      simp only [dictLookup, if_neg hk]
      exact ih h2

/-- The registration invariant, carried through a fold over the
remaining registrations. -/
theorem applyRegs_keys_aux {H : Type} (regs : List (List Char × H))
    (s : BotState H)
    (h : (s.router.map Prod.fst).toFinset = s.available_commands) :
    (((regs.foldl (fun s p => registerCmd p.1 p.2 s) s).router.map
        Prod.fst).toFinset) =
      (regs.foldl (fun s p => registerCmd p.1 p.2 s) s).available_commands := by
  induction regs generalizing s with
  | nil => simpa using h
  | cons p rest ih =>
    simp only [List.foldl_cons]
    apply ih
    simp [registerCmd, keys_dictInsert, h]

/-- The head of any argument vector produced by `parse` is a registered
command name. -/
theorem parse_head_mem (cmds : Finset (List Char)) (text : List Char)
    (argv : List (List Char)) (h : parse cmds text = some argv) :
    argv.headI ∈ cmds := by
  cases htok : tokenize text with
  | nil => simp [parse, htok] at h
  | cons a0 rest =>
    simp only [parse, htok] at h
    by_cases h1 : a0.take cmdPfx.length = cmdPfx
    · rw [if_pos h1] at h
      by_cases h2 : a0.drop cmdPfx.length ∈ cmds
      · rw [if_pos h2] at h
        have h3 := Option.some.inj h
        rw [← h3]
        exact h2
      · rw [if_neg h2] at h; exact absurd h (by simp)
    · rw [if_neg h1] at h; exact absurd h (by simp)

/-- C8: every name added to `available_commands` by command registration
is simultaneously added as a key of the router table, so after any
sequence of registrations `available_commands` equals the router's key
set; hence the router lookup performed by `query` on the first token of
any `parse`-produced command succeeds (never hits a missing key). -/
theorem router_available_sync (H : Type) (regs : List (List Char × H)) :
    (((applyRegs regs).router.map Prod.fst).toFinset =
        (applyRegs regs).available_commands) ∧
    ∀ text argv, parse (applyRegs regs).available_commands text = some argv →
      dictLookup argv.headI (applyRegs regs).router ≠ none := by
  have hinv : ((applyRegs regs).router.map Prod.fst).toFinset =
      (applyRegs regs).available_commands :=
    applyRegs_keys_aux regs (initBot H) (by simp [initBot])
  refine ⟨hinv, ?_⟩
  intro text argv hp
  have hmem : argv.headI ∈ (applyRegs regs).available_commands :=
    parse_head_mem _ _ _ hp
  rw [← hinv] at hmem
  exact dictLookup_ne_none _ _ (List.mem_toFinset.mp hmem)

/-- Witness for `router_available_sync` with one concrete registration. -/
theorem router_available_sync_witness :
    ((((applyRegs [("help".toList, (0 : Nat))]).router.map Prod.fst).toFinset =
        (applyRegs [("help".toList, (0 : Nat))]).available_commands)) ∧
    dictLookup (["help".toList].headI)
        (applyRegs [("help".toList, (0 : Nat))]).router ≠ none := by
  have h := router_available_sync Nat [("help".toList, (0 : Nat))]
  exact ⟨h.1, h.2 ("\\help".toList) ["help".toList] (by decide)⟩

end BSQ
